import Mathlib

/-!
Verification development for the LandCoverNet download notebook
(`notebooks/radiant-mlhub-landcovernet.ipynb`).

The notebook's core pipeline is embedded shallowly:

* `matches_filter`       — the `matches_class` computation inside `get_items`;
* `process_features`     — the feature loop of `get_items`;
* `follow_links`         — the "next"-link loop at the end of `get_items`;
* `get_items`            — the recursive catalog walker (fuel-indexed);
* `get_source_item_assets`, `download_source_and_labels` — the item expander;
* `urlparse`, `download_s3`, `download_http`, `get_download_uri`, `download`,
  `map_pool`, `run_downloads` — the download executor.

Network interaction is modelled by oracle functions passed in explicitly
(`getPage` for listing pages, `fetch` for sub-item metadata, `getLocation`
for the redirect resolver).  Raised Python exceptions are modelled as
`Except.error ()`; an exception caught by a `try` block is matched on
locally, an uncaught one propagates through the `Except` monad.
-/

namespace LandCoverNet

/-- A download task, the tuple `(asset_href, destination_directory)` built by
the expander and consumed by `download`. -/
abbrev DownloadTask := String × String

/-- An asset: a named downloadable file reference; only its `href` is read. -/
structure Asset where
  href : String
deriving DecidableEq

/-- A link attached to a catalog item (`item['links']` entries); the code
reads `link['rel']` and `link['href']`. -/
structure ItemLink where
  rel : String
  href : String
deriving DecidableEq

/-- A link attached to a listing page (`collection['links']` entries); the
code checks `link['rel'] == 'next' and link['href'] is not None`, so the
href is optional here. -/
structure PageLink where
  rel : String
  href : Option String
deriving DecidableEq

/-- A catalog item (one entry of `collection['features']`).
`properties_labels` models `feature['properties'].get('labels', [])`:
`none` when the `labels` key is absent.  `assets` models the item's assets
mapping as an ordered association list, `links` the item's links. -/
structure CatalogItem where
  id : String
  properties_labels : Option (List String)
  assets : List (String × Asset)
  links : List ItemLink
deriving DecidableEq

/-- A decoded listing page: `collection.get('features', [])` and
`collection.get('links', [])`; an absent key is modelled by `[]`. -/
structure Page where
  features : List CatalogItem
  links : List PageLink
deriving DecidableEq

/-- A decoded source sub-item metadata document.  Its
`properties.datetime` is modelled already parsed into a calendar date
(the `arrow.get` string parse is not modelled); `assets` is the ordered
assets mapping iterated by `r.json()['assets'].items()`. -/
structure SubItem where
  year : Nat
  month : Nat
  day : Nat
  assets : List (String × Asset)
deriving DecidableEq

/-- Zero-pads the decimal representation of `n` to width `w`, as arrow's
fixed-width numeric format tokens do. -/
def pad_nat (w n : Nat) : String :=
  let s := Nat.repr n
  String.mk (List.replicate (w - s.length) ('0')) ++ s

/-- Models `arrow.get(...).format('YYYY_MM_DD')` applied to a parsed
capture date. -/
def format_date (y m d : Nat) : String :=
  pad_nat 4 y ++ "_" ++ pad_nat 2 m ++ "_" ++ pad_nat 2 d

/-- Models `os.path.join(a, b)` for the joins the notebook performs: `b`
is always a relative name (a `YYYY_MM_DD` string or a filename), so the
absolute-second-argument branch of `os.path.join` is omitted. -/
def os_path_join (a b : String) : String :=
  match a.toList.getLast? with
  | none => b
  | some c => if c = ('/') then a ++ b else a ++ "/" ++ b

/-- Splits a character list at the first occurrence of `c`, returning the
parts before and after it, or `none` when `c` does not occur. -/
def split_first (c : Char) : List Char → Option (List Char × List Char)
  | [] => none
  | d :: ds =>
    if d = c then some ([], ds)
    else (split_first c ds).map (fun p => (d :: p.1, p.2))

/-- Takes characters up to (excluding) the first slash, returning that
span and the remainder starting at the slash. -/
def span_to_slash : List Char → List Char × List Char
  | [] => ([], [])
  | d :: ds =>
    if d = ('/') then ([], d :: ds)
    else
      let p := span_to_slash ds
      (d :: p.1, p.2)

/-- The result of `urllib.parse.urlparse`: the fields the notebook reads. -/
structure ParsedUri where
  scheme : String
  netloc : String
  path : String
deriving DecidableEq

/-- Models `urllib.parse.urlparse` on the absolute URIs this notebook
handles: the scheme is everything before the first `:`, and when the rest
begins with `//` the netloc runs to the next `/` with the path being the
remainder. -/
def urlparse (uri : String) : ParsedUri :=
  match split_first (':') uri.toList with
  | none => ⟨"", "", uri⟩
  | some (before, after) =>
    match after with
    | ('/') :: ('/') :: rest =>
      let p := span_to_slash rest
      ⟨String.mk before, String.mk p.1, String.mk p.2⟩
    | _ => ⟨String.mk before, "", String.mk after⟩

/-- Models `s.split('/')[-1]`: the characters after the last slash. -/
def last_segment (s : String) : String :=
  String.mk (s.toList.foldl (fun acc c => if c = ('/') then [] else acc ++ [c]) [])

/-- Models the slice `s[1:]`. -/
def string_tail (s : String) : String :=
  String.mk (s.toList.drop 1)

/-- Models the `matches_class` computation at the top of `get_items`'s
feature loop: `True` when `classes is None`, otherwise `True` exactly when
some entry of `feature['properties'].get('labels', [])` is `in classes`. -/
def matches_filter (classes : Option (List String)) (feature : CatalogItem) : Bool :=
  match classes with
  | none => true
  | some cs => (feature.properties_labels.getD []).any (fun lbl => cs.contains lbl)

/-- Result of one `get_items` call, with ghost instrumentation:
`downloads` is the value the source returns (the shared accumulator
list); `visited` records the page URIs fetched, in order, and `expanded`
counts the `download_source_and_labels` calls performed — both ghost
fields exist only so that pagination and cap claims can be stated. -/
structure WalkOut where
  downloads : List (List DownloadTask)
  visited : List String
  expanded : Nat
deriving DecidableEq

/-- Models the feature loop of `get_items`.  Returns
`(returned_early, downloads, items_downloaded)`: the flag is `true` when
the loop executed `return downloads` because the cap check
`items_downloaded >= max_items_downloaded` fired after an increment. -/
def process_features (expandItem : CatalogItem → List (List DownloadTask))
    (classes : Option (List String)) (maxItems : Option Nat) :
    List CatalogItem → Nat → List (List DownloadTask) →
    Bool × List (List DownloadTask) × Nat
  | [], n, downloads => (false, downloads, n)
  | feature :: rest, n, downloads =>
    if matches_filter classes feature then
      match maxItems with
      | some k =>
        if k ≤ n + 1 then (true, downloads ++ expandItem feature, n + 1)
        else process_features expandItem classes maxItems rest (n + 1)
          (downloads ++ expandItem feature)
      | none =>
        process_features expandItem classes maxItems rest (n + 1)
          (downloads ++ expandItem feature)
    else process_features expandItem classes maxItems rest n downloads

/-- Models the link loop at the end of `get_items`:
`for link in collection.get('links', []): if link['rel'] == 'next' and
link['href'] is not None: get_items(link['href'], ...)`.  The loop has no
`break`, so every qualifying link triggers a recursive call; `walk` is
the recursive call (at one less fuel), the shared mutable `downloads`
list is threaded through the calls, and the ghost `visited`/`expanded`
observations of the calls are concatenated/added. -/
def follow_links (walk : String → Nat → List (List DownloadTask) → Option WalkOut) :
    List PageLink → Nat → List (List DownloadTask) → Option WalkOut
  | [], _, downloads => some ⟨downloads, [], 0⟩
  | link :: rest, n, downloads =>
    if link.rel == "next" then
      match link.href with
      | some href =>
        (walk href n downloads).bind (fun out =>
          (follow_links walk rest n out.downloads).map (fun out2 =>
            ⟨out2.downloads, out.visited ++ out2.visited,
             out.expanded + out2.expanded⟩))
      | none => follow_links walk rest n downloads
    else follow_links walk rest n downloads

/-- Models `get_items`.  `getPage` is the catalog oracle
(`requests.get(uri).json()` decoded as a `Page`), `expandItem` the
expansion `download_source_and_labels` performs for a matching feature
(injected as a total function; an expansion that raises would abort the
walk and is treated in the expander development).  The first explicit
argument is recursion fuel: Python recursion has no bound, so `none`
models a call that never returns; with sufficient fuel the result is the
source's return value plus the ghost trace fields of `WalkOut`. -/
def get_items (getPage : String → Page)
    (expandItem : CatalogItem → List (List DownloadTask))
    (classes : Option (List String)) (maxItems : Option Nat) :
    Nat → String → Nat → List (List DownloadTask) → Option WalkOut
  | 0, _, _, _ => none
  | fuel + 1, uri, n, downloads =>
    match process_features expandItem classes maxItems (getPage uri).features n downloads with
    | (true, ds, n2) => some ⟨ds, [uri], n2 - n⟩
    | (false, ds, n2) =>
      (follow_links (get_items getPage expandItem classes maxItems fuel)
          (getPage uri).links n2 ds).map
        (fun out => ⟨out.downloads, uri :: out.visited, (n2 - n) + out.expanded⟩)

/-- The hrefs of the page links the link loop of `get_items` acts on: those
with `link['rel'] == 'next'` whose `link['href'] is not None`, in order. -/
def next_hrefs (links : List PageLink) : List String :=
  links.filterMap (fun link => if link.rel == "next" then link.href else none)

/-- The pages `u1 :: u2 :: ...` form a chain under `getPage`: each page
carries exactly one followable "next" link, pointing at its successor, and
the last page carries none. -/
def chain_from (getPage : String → Page) : List String → Prop
  | [] => True
  | [u] => next_hrefs (getPage u).links = []
  | u :: v :: rest =>
    next_hrefs (getPage u).links = [v] ∧ chain_from getPage (v :: rest)

/-- Models a sequence of `get_items` calls that all omit the `downloads`
argument.  Python binds the default `downloads=[]` to one list object at
definition time and `get_items` mutates it in place and returns it, so
each call starts from the list the previous call returned.  Each call is
`(classes, maxItems, fuel, start_uri)`. -/
def calls_shared_default (getPage : String → Page)
    (expandItem : CatalogItem → List (List DownloadTask))
    (calls : List (Option (List String) × Option Nat × Nat × String)) :
    Option (List (List DownloadTask)) :=
  List.foldlM
    (fun shared c =>
      (get_items getPage expandItem c.1 c.2.1 c.2.2.1 c.2.2.2 0 shared).map
        WalkOut.downloads)
    [] calls

/-- The outcome of a sub-item metadata request.  `raised` models an
exception thrown by `requests.get` itself (connection error, timeout);
`ok none` models a response received whose body does not decode into the
fields the code reads (`r.json()['properties']['datetime']` /
`r.json()['assets']`) — for example a 500 error page; `ok (some sub)` a
successfully decoded sub-item. -/
inductive FetchResult where
  | raised
  | ok (decoded : Option SubItem)
deriving DecidableEq

/-- Models `get_source_item_assets(args)` with `args = (path, href)`.  The
`try` block wraps only `requests.get`, so a raised request is caught and
yields `[]`, while a response whose JSON decoding or field access fails
raises outside the `try` and propagates (`Except.error`).  On success, one
task per entry of the sub-item's assets mapping is produced, destined for
the `YYYY_MM_DD` subdirectory of `path`. -/
def get_source_item_assets (fetch : String → FetchResult)
    (args : String × String) : Except Unit (List DownloadTask) :=
  let path := args.1
  let href := args.2
  match fetch href with
  | .raised => .ok []
  | .ok none => .error ()
  | .ok (some sub) =>
    let dt := format_date sub.year sub.month sub.day
    let asset_path := os_path_join path dt
    .ok (sub.assets.map (fun ka => (ka.2.href, asset_path)))

/-- Models `multiprocessing.pool.ThreadPool.map(f, l)` for workers that
may raise: the results are collected in input order, and if any worker
raised then `map` re-raises (the first raiser in list order) instead of
returning a result list.  In this pure model stopping at the first raiser
is observationally the same as letting the remaining workers run, since a
worker has no effect beyond its returned value. -/
def map_pool {α β : Type} (f : α → Except Unit β) : List α → Except Unit (List β)
  | [] => .ok []
  | a :: as =>
    match f a with
    | .error e => .error e
    | .ok b =>
      match map_pool f as with
      | .error e => .error e
      | .ok bs => .ok (b :: bs)

/-- Models `download_source_and_labels(item)`.  `labels` is
`item.get('assets').get('labels')` (an absent key raises, at the point
where `labels['href']` is read); the source links are expanded through the
worker pool, and the resulting list of per-sub-item task lists gets the
singleton label-task batch `[(labels['href'], path)]` appended. -/
def download_source_and_labels (fetch : String → FetchResult)
    (item : CatalogItem) : Except Unit (List (List DownloadTask)) :=
  let labels := item.assets.lookup ("labels")
  let path := "landcovernet/" ++ item.id ++ "/"
  let source_items :=
    (item.links.filter (fun link => link.rel == "source")).map
      (fun link => (path, link.href))
  match map_pool (get_source_item_assets fetch) source_items with
  | .error e => .error e
  | .ok results =>
    match labels with
    | none => .error ()
    | some a => .ok (results ++ [[(a.href, path)]])

/-- Specification-side count: the total number of assets over the source
sub-items whose metadata fetch succeeded and decoded. -/
def successful_asset_count (fetch : String → FetchResult)
    (item : CatalogItem) : Nat :=
  ((item.links.filter (fun link => link.rel == "source")).map
    (fun link =>
      match fetch link.href with
      | .ok (some sub) => sub.assets.length
      | _ => 0)).sum

/-- Specification-side description of the tasks one source link
contributes when no decode failure occurs: none when its request raised,
one per asset of the decoded sub-item otherwise. -/
def per_link_tasks (fetch : String → FetchResult) (path : String)
    (link : ItemLink) : List DownloadTask :=
  match fetch link.href with
  | .ok (some sub) =>
    sub.assets.map
      (fun ka => (ka.2.href, os_path_join path (format_date sub.year sub.month sub.day)))
  | _ => []

/-- The observable effect of one `download(d)` call: which protocol branch
ran and which file it wrote where.  `skipped` is the fall-through when the
resolved scheme is neither `s3` nor `http`/`https`. -/
inductive DlAction where
  | s3_file (bucket : String) (key : String) (dest : String)
  | http_file (uri : String) (dest : String)
  | skipped
deriving DecidableEq

/-- Models `download_s3(uri, path)`: bucket is the parsed netloc, key the
parsed path without its leading slash, and the object is written to
`os.path.join(path, key.split('/')[-1])`. -/
def download_s3 (uri path : String) : DlAction :=
  let parsed := urlparse uri
  let bucket := parsed.netloc
  let key := string_tail parsed.path
  .s3_file bucket key (os_path_join path (last_segment key))

/-- Models `download_http(uri, path)`: the body is streamed to
`os.path.join(path, parsed.path.split('/')[-1])`. -/
def download_http (uri path : String) : DlAction :=
  let parsed := urlparse uri
  .http_file uri (os_path_join path (last_segment parsed.path))

/-- Models `get_download_uri(uri)`: a GET with redirects disabled whose
`Location` header is returned; `r.headers['Location']` raises `KeyError`
when the header is absent.  `getLocation` is the redirect oracle. -/
def get_download_uri (getLocation : String → Option String)
    (uri : String) : Except Unit String :=
  match getLocation uri with
  | none => .error ()
  | some loc => .ok loc

/-- Models `download(d)` for a task `d = (href, path)`.  There is no
`try`/`except` anywhere in it: a failed resolution propagates.  The
scheme dispatch mirrors `parsed.scheme in ['s3']` /
`parsed.scheme in ['http', 'https']`, with silent fall-through
otherwise. -/
def download (getLocation : String → Option String)
    (d : DownloadTask) : Except Unit DlAction :=
  match get_download_uri getLocation d.1 with
  | .error e => .error e
  | .ok download_uri =>
    let parsed := urlparse download_uri
    if parsed.scheme ∈ [("s3")] then .ok (download_s3 download_uri d.2)
    else if parsed.scheme ∈ [("http"), ("https")] then
      .ok (download_http download_uri d.2)
    else .ok DlAction.skipped

/-- Models the top-level download loop
`for d in tqdm(to_download): p.map(download, d)`: each per-item batch is
handed to the pool, and an exception re-raised by `p.map` aborts the
loop (the outer iteration is itself a `map_pool`-shaped fold whose error
is the first failing batch's error). -/
def run_downloads (getLocation : String → Option String)
    (to_download : List (List DownloadTask)) : Except Unit (List (List DlAction)) :=
  map_pool (fun d => map_pool (download getLocation) d) to_download

/-- Specification-side link policy asserted by the spec: only the first
"next" link with a non-null href is honored per page, any later ones are
ignored.  Stated for comparison with the source's `follow_links`. -/
def follow_first_next (walk : String → Nat → List (List DownloadTask) → Option WalkOut)
    (links : List PageLink) (n : Nat) (downloads : List (List DownloadTask)) :
    Option WalkOut :=
  match next_hrefs links with
  | [] => some ⟨downloads, [], 0⟩
  | v :: _ =>
    (walk v n downloads).map (fun out => ⟨out.downloads, out.visited, out.expanded⟩)

/-! ## Helper lemmas about the feature loop and the link loop -/

/-- Unfolding: `get_items` at positive fuel. -/
theorem get_items_succ (gp : String → Page) (ex : CatalogItem → List (List DownloadTask))
    (classes : Option (List String)) (mi : Option Nat) (fuel : Nat) (uri : String)
    (n : Nat) (ds : List (List DownloadTask)) :
    get_items gp ex classes mi (fuel + 1) uri n ds =
      (match process_features ex classes mi (gp uri).features n ds with
       | (true, ds2, n2) => some ⟨ds2, [uri], n2 - n⟩
       | (false, ds2, n2) =>
         (follow_links (get_items gp ex classes mi fuel) (gp uri).links n2 ds2).map
           (fun out => ⟨out.downloads, uri :: out.visited, (n2 - n) + out.expanded⟩)) :=
  rfl

/-- Unfolding: `get_items` when the feature loop returned early. -/
theorem get_items_succ_true {gp : String → Page}
    {ex : CatalogItem → List (List DownloadTask)} {classes : Option (List String)}
    {mi : Option Nat} {fuel : Nat} {uri : String} {n : Nat}
    {ds ds2 : List (List DownloadTask)} {n2 : Nat}
    (hpf : process_features ex classes mi (gp uri).features n ds = (true, ds2, n2)) :
    get_items gp ex classes mi (fuel + 1) uri n ds = some ⟨ds2, [uri], n2 - n⟩ := by
  rw [get_items_succ, hpf]

/-- Unfolding: `get_items` when the feature loop ran to completion. -/
theorem get_items_succ_false {gp : String → Page}
    {ex : CatalogItem → List (List DownloadTask)} {classes : Option (List String)}
    {mi : Option Nat} {fuel : Nat} {uri : String} {n : Nat}
    {ds ds2 : List (List DownloadTask)} {n2 : Nat}
    (hpf : process_features ex classes mi (gp uri).features n ds = (false, ds2, n2)) :
    get_items gp ex classes mi (fuel + 1) uri n ds =
      (follow_links (get_items gp ex classes mi fuel) (gp uri).links n2 ds2).map
        (fun out => ⟨out.downloads, uri :: out.visited, (n2 - n) + out.expanded⟩) := by
  rw [get_items_succ, hpf]

/-- Unfolding: the link loop at a followable "next" link. -/
theorem fl_cons_next_some (walk : String → Nat → List (List DownloadTask) → Option WalkOut)
    (rel href : String) (rest : List PageLink) (n : Nat) (ds : List (List DownloadTask))
    (hrel : (rel == "next") = true) :
    follow_links walk (⟨rel, some href⟩ :: rest) n ds =
      (walk href n ds).bind (fun out =>
        (follow_links walk rest n out.downloads).map (fun out2 =>
          ⟨out2.downloads, out.visited ++ out2.visited,
           out.expanded + out2.expanded⟩)) := by
  rw [follow_links, if_pos hrel]

/-- Unfolding: the link loop skips a "next" link with a null href. -/
theorem fl_cons_next_none (walk : String → Nat → List (List DownloadTask) → Option WalkOut)
    (rel : String) (rest : List PageLink) (n : Nat) (ds : List (List DownloadTask))
    (hrel : (rel == "next") = true) :
    follow_links walk (⟨rel, none⟩ :: rest) n ds = follow_links walk rest n ds := by
  rw [follow_links, if_pos hrel]

/-- Unfolding: the link loop skips a link whose relation is not "next". -/
theorem fl_cons_other (walk : String → Nat → List (List DownloadTask) → Option WalkOut)
    (rel : String) (href : Option String) (rest : List PageLink) (n : Nat)
    (ds : List (List DownloadTask)) (hrel : ¬ (rel == "next") = true) :
    follow_links walk (⟨rel, href⟩ :: rest) n ds = follow_links walk rest n ds := by
  rw [follow_links, if_neg hrel]

/-- The feature loop only appends to the accumulator list. -/
theorem pf_mono (expandItem : CatalogItem → List (List DownloadTask))
    (classes : Option (List String)) (maxItems : Option Nat) :
    ∀ (l : List CatalogItem) (n : Nat) (ds : List (List DownloadTask))
      (b : Bool) (ds2 : List (List DownloadTask)) (n2 : Nat),
      process_features expandItem classes maxItems l n ds = (b, ds2, n2) →
      ∃ t, ds2 = ds ++ t := by
  intro l
  induction l with
  | nil =>
    intro n ds b ds2 n2 hq
    simp only [process_features, Prod.mk.injEq] at hq
    exact ⟨[], by simp [hq.2.1.symm]⟩
  | cons f rest ih =>
    intro n ds b ds2 n2 hq
    by_cases hm : matches_filter classes f = true
    · cases maxItems with
      | none =>
        rw [process_features, if_pos hm] at hq
        rcases ih (n + 1) (ds ++ expandItem f) b ds2 n2 hq with ⟨t, ht⟩
        exact ⟨expandItem f ++ t, by simp [ht]⟩
      | some k =>
        rw [process_features, if_pos hm] at hq
        by_cases hk : k ≤ n + 1
        · rw [if_pos hk] at hq
          simp only [Prod.mk.injEq] at hq
          exact ⟨expandItem f, by simp [hq.2.1.symm]⟩
        · rw [if_neg hk] at hq
          rcases ih (n + 1) (ds ++ expandItem f) b ds2 n2 hq with ⟨t, ht⟩
          exact ⟨expandItem f ++ t, by simp [ht]⟩
    · cases maxItems with
      | none =>
        rw [process_features, if_neg hm] at hq
        exact ih n ds b ds2 n2 hq
      | some k =>
        rw [process_features, if_neg hm] at hq
        exact ih n ds b ds2 n2 hq

/-- Counter facts of the feature loop under a set cap `k`: the counter
never decreases; when the loop returned early the counter just reached
the cap (`k ≤ n2 ≤ max k (n+1)`); when it did not return early, either
nothing was expanded or the counter stayed below the cap. -/
theorem pf_counter (expandItem : CatalogItem → List (List DownloadTask))
    (classes : Option (List String)) (k : Nat) :
    ∀ (l : List CatalogItem) (n : Nat) (ds : List (List DownloadTask))
      (b : Bool) (ds2 : List (List DownloadTask)) (n2 : Nat),
      process_features expandItem classes (some k) l n ds = (b, ds2, n2) →
      n ≤ n2 ∧ (b = true → k ≤ n2 ∧ n2 ≤ max k (n + 1)) ∧
        (b = false → n2 = n ∨ n2 < k) := by
  intro l
  induction l with
  | nil =>
    intro n ds b ds2 n2 hq
    simp only [process_features, Prod.mk.injEq] at hq
    rcases hq with ⟨hb, _, hn⟩
    subst hb; subst hn
    refine ⟨Nat.le_refl n, fun hb => by simp at hb, fun _ => Or.inl rfl⟩
  | cons f rest ih =>
    intro n ds b ds2 n2 hq
    by_cases hm : matches_filter classes f = true
    · rw [process_features, if_pos hm] at hq
      by_cases hk : k ≤ n + 1
      · rw [if_pos hk] at hq
        simp only [Prod.mk.injEq] at hq
        rcases hq with ⟨hb, _, hn⟩
        subst hb; subst hn
        refine ⟨by omega, fun _ => by omega, fun hb => by simp at hb⟩
      · rw [if_neg hk] at hq
        rcases ih (n + 1) (ds ++ expandItem f) b ds2 n2 hq with ⟨h1, h2, h3⟩
        refine ⟨by omega, fun hb => ?_, fun hb => ?_⟩
        · rcases h2 hb with ⟨ha, hbnd⟩
          omega
        · rcases h3 hb with h | h <;> omega
    · rw [process_features, if_neg hm] at hq
      exact ih n ds b ds2 n2 hq

/-- With `maxItems` unset the feature loop never returns early. -/
theorem pf_flag_none (expandItem : CatalogItem → List (List DownloadTask))
    (classes : Option (List String)) :
    ∀ (l : List CatalogItem) (n : Nat) (ds : List (List DownloadTask))
      (b : Bool) (ds2 : List (List DownloadTask)) (n2 : Nat),
      process_features expandItem classes none l n ds = (b, ds2, n2) →
      b = false := by
  intro l
  induction l with
  | nil =>
    intro n ds b ds2 n2 hq
    simp only [process_features, Prod.mk.injEq] at hq
    exact hq.1.symm
  | cons f rest ih =>
    intro n ds b ds2 n2 hq
    by_cases hm : matches_filter classes f = true
    · rw [process_features, if_pos hm] at hq
      exact ih (n + 1) (ds ++ expandItem f) b ds2 n2 hq
    · rw [process_features, if_neg hm] at hq
      exact ih n ds b ds2 n2 hq

/-- If every page walk only appends to the accumulator, so does the link
loop. -/
theorem fl_mono (walk : String → Nat → List (List DownloadTask) → Option WalkOut)
    (hw : ∀ href n ds out, walk href n ds = some out → ∃ t, out.downloads = ds ++ t) :
    ∀ (links : List PageLink) (n : Nat) (ds : List (List DownloadTask)) (out : WalkOut),
      follow_links walk links n ds = some out → ∃ t, out.downloads = ds ++ t := by
  intro links
  induction links with
  | nil =>
    intro n ds out h
    simp only [follow_links, Option.some.injEq] at h
    exact ⟨[], by simp [← h]⟩
  | cons link rest ih =>
    intro n ds out h
    obtain ⟨rel, href⟩ := link
    by_cases hrel : (rel == "next") = true
    · cases href with
      | none =>
        rw [fl_cons_next_none walk rel rest n ds hrel] at h
        exact ih n ds out h
      | some href =>
        rw [fl_cons_next_some walk rel href rest n ds hrel] at h
        rcases hw1 : walk href n ds with _ | out1 <;> rw [hw1] at h
        · simp at h
        · rw [Option.some_bind] at h
          rcases hfl : follow_links walk rest n out1.downloads with _ | out2 <;>
            rw [hfl] at h
          · simp at h
          · rw [Option.map_some', Option.some.injEq] at h
            rcases hw href n ds out1 hw1 with ⟨t1, ht1⟩
            rcases ih n out1.downloads out2 hfl with ⟨t2, ht2⟩
            exact ⟨t1 ++ t2, by simp [← h, ht2, ht1]⟩
    · rw [fl_cons_other walk rel href rest n ds hrel] at h
      exact ih n ds out h

/-- A page with no followable "next" link makes the link loop a no-op. -/
theorem fl_next_nil (walk : String → Nat → List (List DownloadTask) → Option WalkOut) :
    ∀ (links : List PageLink) (n : Nat) (ds : List (List DownloadTask)),
      next_hrefs links = [] → follow_links walk links n ds = some ⟨ds, [], 0⟩ := by
  intro links
  induction links with
  | nil => intro n ds _; simp [follow_links]
  | cons link rest ih =>
    intro n ds h
    obtain ⟨rel, href⟩ := link
    by_cases hrel : (rel == "next") = true
    · cases href with
      | none =>
        rw [next_hrefs, List.filterMap_cons] at h
        simp only [if_pos hrel] at h
        rw [fl_cons_next_none walk rel rest n ds hrel]
        exact ih n ds (by simpa [next_hrefs] using h)
      | some href =>
        rw [next_hrefs, List.filterMap_cons] at h
        simp only [if_pos hrel] at h
        exact absurd h (by simp)
    · rw [next_hrefs, List.filterMap_cons] at h
      simp only [if_neg hrel] at h
      rw [fl_cons_other walk rel href rest n ds hrel]
      exact ih n ds (by simpa [next_hrefs] using h)

/-- A page with exactly one followable "next" link makes the link loop
one recursive call. -/
theorem fl_next_single (walk : String → Nat → List (List DownloadTask) → Option WalkOut) :
    ∀ (links : List PageLink) (v : String) (n : Nat) (ds : List (List DownloadTask)),
      next_hrefs links = [v] →
      follow_links walk links n ds =
        (walk v n ds).map (fun out => ⟨out.downloads, out.visited, out.expanded⟩) := by
  intro links
  induction links with
  | nil => intro v n ds h; exact absurd h (by simp [next_hrefs])
  | cons link rest ih =>
    intro v n ds h
    obtain ⟨rel, href⟩ := link
    by_cases hrel : (rel == "next") = true
    · cases href with
      | none =>
        rw [next_hrefs, List.filterMap_cons] at h
        simp only [if_pos hrel] at h
        rw [fl_cons_next_none walk rel rest n ds hrel]
        exact ih v n ds (by simpa [next_hrefs] using h)
      | some href =>
        rw [next_hrefs, List.filterMap_cons] at h
        simp only [if_pos hrel, List.cons.injEq] at h
        rcases h with ⟨hv, hrest⟩
        subst hv
        rw [fl_cons_next_some walk rel href rest n ds hrel]
        rcases hw1 : walk href n ds with _ | out1
        · simp
        · simp only [Option.some_bind, Option.map_some']
          rw [fl_next_nil walk rest n out1.downloads (by simpa [next_hrefs] using hrest)]
          simp
    · rw [next_hrefs, List.filterMap_cons] at h
      simp only [if_neg hrel] at h
      rw [fl_cons_other walk rel href rest n ds hrel]
      exact ih v n ds (by simpa [next_hrefs] using h)

/-- The walker only appends to the shared accumulator list: whatever it
returns extends the `downloads` argument it was given. -/
theorem walk_mono (gp : String → Page) (ex : CatalogItem → List (List DownloadTask))
    (classes : Option (List String)) (mi : Option Nat) :
    ∀ (fuel : Nat) (uri : String) (n : Nat) (ds : List (List DownloadTask)) (out : WalkOut),
      get_items gp ex classes mi fuel uri n ds = some out →
      ∃ t, out.downloads = ds ++ t := by
  intro fuel
  induction fuel with
  | zero => intro uri n ds out h; exact absurd h (by simp [get_items])
  | succ fuel ih =>
    intro uri n ds out h
    rw [get_items_succ] at h
    rcases hpf : process_features ex classes mi (gp uri).features n ds with ⟨b, ds2, n2⟩
    rw [hpf] at h
    rcases pf_mono ex classes mi (gp uri).features n ds b ds2 n2 hpf with ⟨t1, ht1⟩
    cases b with
    | true =>
      replace h : some (⟨ds2, [uri], n2 - n⟩ : WalkOut) = some out := h
      rw [Option.some.injEq] at h
      exact ⟨t1, by rw [← h]; exact ht1⟩
    | false =>
      replace h :
          (follow_links (get_items gp ex classes mi fuel) (gp uri).links n2 ds2).map
            (fun o => (⟨o.downloads, uri :: o.visited, (n2 - n) + o.expanded⟩ : WalkOut)) =
            some out := h
      rw [Option.map_eq_some'] at h
      rcases h with ⟨out2, hfl, hout⟩
      rcases fl_mono (get_items gp ex classes mi fuel) (fun href n' ds' out' =>
        ih href n' ds' out') (gp uri).links n2 ds2 out2 hfl with ⟨t2, ht2⟩
      exact ⟨t1 ++ t2, by rw [← hout]; simp [ht2, ht1]⟩

/-- Cap bound along a chain: a walk started with counter `n` expands at
most `max (k - n) 1` items — the `1` because the cap test only runs after
an expansion. -/
theorem walk_expanded_le (gp : String → Page)
    (ex : CatalogItem → List (List DownloadTask))
    (classes : Option (List String)) (k : Nat) :
    ∀ (fuel : Nat) (u : String) (rest : List String) (n : Nat)
      (ds : List (List DownloadTask)) (out : WalkOut),
      chain_from gp (u :: rest) →
      get_items gp ex classes (some k) fuel u n ds = some out →
      out.expanded ≤ max (k - n) 1 := by
  intro fuel
  induction fuel with
  | zero => intro u rest n ds out _ h; exact absurd h (by simp [get_items])
  | succ fuel ih =>
    intro u rest n ds out hch h
    rw [get_items_succ] at h
    rcases hpf : process_features ex classes (some k) (gp u).features n ds with ⟨b, ds2, n2⟩
    rw [hpf] at h
    rcases pf_counter ex classes k (gp u).features n ds b ds2 n2 hpf with ⟨h1, h2, h3⟩
    cases b with
    | true =>
      replace h : some (⟨ds2, [u], n2 - n⟩ : WalkOut) = some out := h
      rw [Option.some.injEq] at h
      rcases h2 rfl with ⟨ha, hb⟩
      have hexp : out.expanded = n2 - n := by rw [← h]
      omega
    | false =>
      replace h :
          (follow_links (get_items gp ex classes (some k) fuel) (gp u).links n2 ds2).map
            (fun o => (⟨o.downloads, u :: o.visited, (n2 - n) + o.expanded⟩ : WalkOut)) =
            some out := h
      rcases h3 rfl with hn | hn
      all_goals (
        cases rest with
        | nil =>
          replace hch : next_hrefs (gp u).links = [] := hch
          rw [fl_next_nil (get_items gp ex classes (some k) fuel) (gp u).links n2 ds2 hch,
            Option.map_some', Option.some.injEq] at h
          have hexp : out.expanded = (n2 - n) + 0 := by rw [← h]
          omega
        | cons v rest2 =>
          rcases hch with ⟨hnx, hch2⟩
          rw [fl_next_single (get_items gp ex classes (some k) fuel) (gp u).links v n2 ds2 hnx,
            Option.map_map] at h
          rw [Option.map_eq_some'] at h
          rcases h with ⟨out2, hw, hout⟩
          have hrec := ih v rest2 n2 ds2 out2 hch2 hw
          have hexp : out.expanded = (n2 - n) + out2.expanded := by rw [← hout]; rfl
          omega)

/-! ## Claim C1: filter correctness -/

/-- C1: for every catalog item and class filter, the walker's match
predicate is true iff the filter is unset, or some label of
`properties.labels` (treated as empty when absent) belongs to the filter
(OR-semantics); in particular an item with empty or absent labels never
matches a set filter. -/
theorem C1_filter_matches (classes : Option (List String)) (feature : CatalogItem) :
    (matches_filter classes feature = true ↔
      classes = none ∨
        ∃ cs, classes = some cs ∧
          ∃ lbl, lbl ∈ feature.properties_labels.getD [] ∧ lbl ∈ cs)
    ∧ (∀ cs, classes = some cs → feature.properties_labels.getD [] = [] →
        matches_filter classes feature = false) := by
  constructor
  · cases classes with
    | none => simp [matches_filter]
    | some cs =>
      simp only [matches_filter, List.any_eq_true, List.contains, List.elem_eq_mem,
        decide_eq_true_eq, Option.some.injEq, reduceCtorEq, false_or]
      constructor
      · rintro ⟨lbl, hmem, hin⟩
        exact ⟨cs, rfl, lbl, hmem, hin⟩
      · rintro ⟨cs2, hcs, lbl, hmem, hin⟩
        cases hcs
        exact ⟨lbl, hmem, hin⟩
  · intro cs hcs hlab
    subst hcs
    simp [matches_filter, hlab]

/-- Witness for C1 at a concrete item with empty labels and the filter
`{"Water"}`. -/
theorem C1_filter_matches_witness :
    matches_filter (some [("Water")]) ⟨("i"), none, [], []⟩ = false :=
  (C1_filter_matches (some [("Water")]) ⟨("i"), none, [], []⟩).2 [("Water")] rfl rfl

/-! ## Claim C2: cap enforcement -/

/-- C2 as stated is false: for `maxItems = k = 0` the walk still expands
one matching item, because the check `items_downloaded >=
max_items_downloaded` only runs after an item has been expanded and the
counter incremented.  Here a one-page chain with one (trivially matching)
item and `k = 0` expands 1 > 0 items. -/
theorem C2_cap_counterexample :
    ¬ (∀ (gp : String → Page) (ex : CatalogItem → List (List DownloadTask))
         (classes : Option (List String)) (k fuel : Nat) (u : String)
         (rest : List String) (ds : List (List DownloadTask)) (out : WalkOut),
         chain_from gp (u :: rest) →
         get_items gp ex classes (some k) fuel u 0 ds = some out →
         out.expanded ≤ k) := by
  intro hclaim
  have h := hclaim (fun _ => ⟨[⟨("i0"), none, [], []⟩], []⟩)
      (fun _ => [[(("h"), ("d"))]]) none 0 1 ("u0") [] []
      ⟨[[(("h"), ("d"))]], [("u0")], 1⟩ rfl (by decide)
  exact absurd h (by decide)

/-- C2 amended: along a chain of pages the walk started at counter 0
expands at most `max k 1` items (so at most `k` whenever `k ≥ 1`, while
`k = 0` may still expand one item); and whenever the feature loop hits
the cap, `get_items` returns the accumulated list immediately — it
processes no further feature and follows no "next" link of that page
(early termination, not an error). -/
theorem C2_cap_amended :
    (∀ (gp : String → Page) (ex : CatalogItem → List (List DownloadTask))
       (classes : Option (List String)) (k fuel : Nat) (u : String)
       (rest : List String) (ds : List (List DownloadTask)) (out : WalkOut),
       chain_from gp (u :: rest) →
       get_items gp ex classes (some k) fuel u 0 ds = some out →
       out.expanded ≤ max k 1)
    ∧ (∀ (gp : String → Page) (ex : CatalogItem → List (List DownloadTask))
         (classes : Option (List String)) (k fuel : Nat) (uri : String) (n : Nat)
         (ds ds2 : List (List DownloadTask)) (n2 : Nat),
         process_features ex classes (some k) (gp uri).features n ds = (true, ds2, n2) →
         get_items gp ex classes (some k) (fuel + 1) uri n ds =
           some ⟨ds2, [uri], n2 - n⟩) := by
  constructor
  · intro gp ex classes k fuel u rest ds out hch h
    have hb := walk_expanded_le gp ex classes k fuel u rest 0 ds out hch h
    omega
  · intro gp ex classes k fuel uri n ds ds2 n2 hpf
    rw [get_items_succ, hpf]

/-- Witness for the amended C2 on a concrete one-page chain with cap 2. -/
theorem C2_cap_amended_witness :
    ∃ out,
      get_items (fun _ => ⟨[⟨("i0"), none, [], []⟩], []⟩)
          (fun _ => [[(("h"), ("d"))]]) none (some 2) 1 ("u0") 0 [] = some out ∧
        out.expanded ≤ max 2 1 := by
  refine ⟨⟨[[(("h"), ("d"))]], [("u0")], 1⟩, by decide, ?_⟩
  exact C2_cap_amended.1 (fun _ => ⟨[⟨("i0"), none, [], []⟩], []⟩)
    (fun _ => [[(("h"), ("d"))]]) none 2 1 ("u0") [] []
    ⟨[[(("h"), ("d"))]], [("u0")], 1⟩ rfl (by decide)

/-! ## Claim C3: "next"-link handling -/

/-- C3 as stated is false: the link loop of `get_items` has no `break`,
so it does not honor only the first "next" link — it recurses into every
"next" link with a non-null href.  A page with two "next" links shows the
source loop and the first-match-wins policy disagree. -/
theorem C3_first_next_counterexample :
    ¬ (∀ (walk : String → Nat → List (List DownloadTask) → Option WalkOut)
         (links : List PageLink) (n : Nat) (ds : List (List DownloadTask)),
         follow_links walk links n ds = follow_first_next walk links n ds) := by
  intro hclaim
  have h := hclaim (fun href _ ds => some ⟨ds ++ [[(href, ("d"))]], [href], 1⟩)
      [⟨("next"), some ("a")⟩, ⟨("next"), some ("b")⟩] 0 []
  exact absurd h (by decide)

/-- C3 amended: the link loop follows every "next" link with a non-null
href, in page order, each recursive call receiving the accumulator that
the previous one returned; shown here for a page carrying two such
links. -/
theorem C3_every_next_followed
    (walk : String → Nat → List (List DownloadTask) → Option WalkOut)
    (a b : String) (n : Nat) (ds : List (List DownloadTask)) (outA outB : WalkOut)
    (ha : walk a n ds = some outA) (hb : walk b n outA.downloads = some outB) :
    follow_links walk [⟨("next"), some a⟩, ⟨("next"), some b⟩] n ds =
      some ⟨outB.downloads, outA.visited ++ outB.visited,
            outA.expanded + outB.expanded⟩ := by
  rw [fl_cons_next_some walk ("next") a ([⟨("next"), some b⟩]) n ds (by decide)]
  simp only [ha, Option.some_bind]
  rw [fl_cons_next_some walk ("next") b ([]) n outA.downloads (by decide)]
  simp only [hb, Option.some_bind, follow_links, Option.map_some']
  simp

/-- Witness for the amended C3 with two concrete "next" links. -/
theorem C3_every_next_followed_witness :
    follow_links (fun href _ ds => some ⟨ds ++ [[(href, ("d"))]], [href], 1⟩)
      [⟨("next"), some ("a")⟩, ⟨("next"), some ("b")⟩] 0 [] =
      some ⟨[[(("a"), ("d"))], [(("b"), ("d"))]], [("a"), ("b")], 2⟩ :=
  C3_every_next_followed (fun href _ ds => some ⟨ds ++ [[(href, ("d"))]], [href], 1⟩)
    ("a") ("b") 0 [] ⟨[[(("a"), ("d"))]], [("a")], 1⟩
    ⟨[[(("a"), ("d"))], [(("b"), ("d"))]], [("b")], 1⟩ rfl rfl

/-! ## Claim C7: pagination termination -/

/-- C7: along every finite chain of pages each holding at most one
followable "next" link, the walk (with `maxItems` unset) returns a result
with fuel equal to the chain length — it terminates — and its trace of
fetched pages is exactly the chain, so each page is visited exactly once;
the last page, which has no "next" link with a non-null href, ends the
walk. -/
theorem C7_pagination_chain (gp : String → Page)
    (ex : CatalogItem → List (List DownloadTask)) (classes : Option (List String)) :
    ∀ (rest : List String) (u : String) (n : Nat) (ds : List (List DownloadTask)),
      chain_from gp (u :: rest) → (u :: rest).Nodup →
      ∃ out, get_items gp ex classes none (rest.length + 1) u n ds = some out ∧
        out.visited = u :: rest := by
  intro rest
  induction rest with
  | nil =>
    intro u n ds hch _
    rcases hpf : process_features ex classes none (gp u).features n ds with ⟨b, ds2, n2⟩
    have hb := pf_flag_none ex classes (gp u).features n ds b ds2 n2 hpf
    subst hb
    refine ⟨⟨ds2, [u], (n2 - n) + 0⟩, ?_, rfl⟩
    rw [get_items_succ_false hpf]
    rw [fl_next_nil _ (gp u).links n2 ds2 hch]
    rw [Option.map_some']
  | cons v rest2 ih =>
    intro u n ds hch hnd
    rcases hch with ⟨hnx, hch2⟩
    rcases hpf : process_features ex classes none (gp u).features n ds with ⟨b, ds2, n2⟩
    have hb := pf_flag_none ex classes (gp u).features n ds b ds2 n2 hpf
    subst hb
    have hnd2 : (v :: rest2).Nodup := (List.nodup_cons.mp hnd).2
    rcases ih v n2 ds2 hch2 hnd2 with ⟨out2, hw, hv⟩
    refine ⟨⟨out2.downloads, u :: out2.visited, (n2 - n) + out2.expanded⟩, ?_,
      by rw [hv]⟩
    simp only [List.length_cons]
    rw [get_items_succ_false hpf]
    rw [fl_next_single (get_items gp ex classes none (rest2.length + 1))
      (gp u).links v n2 ds2 hnx]
    rw [hw, Option.map_some', Option.map_some']

/-- Witness for C7 on a concrete two-page chain. -/
theorem C7_pagination_chain_witness :
    ∃ out,
      get_items
          (fun u => if u == ("p0") then ⟨[], [⟨("next"), some ("p1")⟩]⟩ else ⟨[], []⟩)
          (fun _ => []) none none 2 ("p0") 0 [] = some out ∧
        out.visited = [("p0"), ("p1")] :=
  C7_pagination_chain
    (fun u => if u == ("p0") then ⟨[], [⟨("next"), some ("p1")⟩]⟩ else ⟨[], []⟩)
    (fun _ => []) none [("p1")] ("p0") 0 [] ⟨rfl, rfl⟩ (by decide)

/-! ## Claim C10: the mutable default accumulator -/

/-- C10: `downloads=[]` is bound once at definition time and `get_items`
mutates and returns that same list, so of two successive calls that both
omit the argument, the second returns everything the first accumulated
followed by its own batches — the walk is not a pure function of its
explicit arguments.  `calls_shared_default` models the definition-time
binding; the `∃ own` suffix is the second call's own contribution. -/
theorem C10_mutable_default_shared (gp : String → Page)
    (ex : CatalogItem → List (List DownloadTask))
    (c1 c2 : Option (List String) × Option Nat × Nat × String)
    (r1 r2 : List (List DownloadTask)) :
    calls_shared_default gp ex [c1] = some r1 →
    calls_shared_default gp ex [c1, c2] = some r2 →
    ∃ own, r2 = r1 ++ own := by
  intro h1 h2
  simp only [calls_shared_default, List.foldlM_cons, List.foldlM_nil, bind_pure] at h1 h2
  rcases Option.map_eq_some'.mp h1 with ⟨o1, hg1, ho1⟩
  rw [hg1] at h2
  simp only [Option.map_some', Option.bind_eq_bind, Option.some_bind] at h2
  rw [ho1] at h2
  rcases Option.map_eq_some'.mp h2 with ⟨o2, hg2, ho2⟩
  rcases walk_mono gp ex c2.1 c2.2.1 c2.2.2.1 c2.2.2.2 0 r1 o2 hg2 with ⟨t, ht⟩
  exact ⟨t, by rw [← ho2]; exact ht⟩

/-- Witness for C10: two concrete cap-free calls on a one-item page;
the second call's result extends the first call's. -/
theorem C10_mutable_default_shared_witness :
    ∃ own,
      calls_shared_default (fun _ => ⟨[⟨("i0"), none, [], []⟩], []⟩)
          (fun _ => [[(("h"), ("d"))]]) [(none, none, 1, ("u"))] =
        some [[(("h"), ("d"))]] ∧
      calls_shared_default (fun _ => ⟨[⟨("i0"), none, [], []⟩], []⟩)
          (fun _ => [[(("h"), ("d"))]])
          [(none, none, 1, ("u")), (none, none, 1, ("u"))] =
        some ([[(("h"), ("d"))]] ++ own) := by
  rcases C10_mutable_default_shared (fun _ => ⟨[⟨("i0"), none, [], []⟩], []⟩)
      (fun _ => [[(("h"), ("d"))]]) (none, none, 1, ("u")) (none, none, 1, ("u"))
      [[(("h"), ("d"))]] [[(("h"), ("d"))], [(("h"), ("d"))]] rfl rfl with ⟨own, hown⟩
  exact ⟨own, rfl, by rw [← hown]; rfl⟩

/-! ## Helper lemmas about the worker pool and the expander -/

/-- Inversion: a pool map that returned a result list had a successful
head worker and a successful tail. -/
theorem map_pool_ok_cons_inv {α β : Type} {f : α → Except Unit β} {a : α}
    {as : List α} {results : List β}
    (hq : map_pool f (a :: as) = .ok results) :
    ∃ b bs, f a = .ok b ∧ map_pool f as = .ok bs ∧ results = b :: bs := by
  rw [map_pool] at hq
  split at hq
  next e he => exact absurd hq (by simp)
  next b hb =>
    split at hq
    next e he => exact absurd hq (by simp)
    next bs hbs =>
      rw [Except.ok.injEq] at hq
      exact ⟨b, bs, hb, hbs, hq.symm⟩

/-- One raising worker makes the whole pool map raise. -/
theorem map_pool_error_mem {α β : Type} (f : α → Except Unit β) :
    ∀ (l : List α) (a : α), a ∈ l → f a = .error () → map_pool f l = .error () := by
  intro l
  induction l with
  | nil => intro a ha _; exact absurd ha (List.not_mem_nil a)
  | cons x rest ih =>
    intro a ha hf
    rcases List.mem_cons.mp ha with h | h
    · subst h
      rw [map_pool, hf]
    · rw [map_pool]
      rcases hx : f x with e | b
      · cases e
        rfl
      · rw [ih a h hf]

/-- A sub-item whose request did not raise and whose body decoded
expands into one task per asset. -/
theorem gsia_decoded {fetch : String → FetchResult} {path href : String} {sub : SubItem}
    (hf : fetch href = FetchResult.ok (some sub)) :
    get_source_item_assets fetch (path, href) =
      .ok (sub.assets.map (fun ka =>
        (ka.2.href, os_path_join path (format_date sub.year sub.month sub.day)))) := by
  simp only [get_source_item_assets, hf]

/-- Absent decode failures, a sub-item's contribution is exactly
`per_link_tasks`. -/
theorem gsia_no_decode {fetch : String → FetchResult} {path href : String}
    (hnd : fetch href ≠ FetchResult.ok none) :
    get_source_item_assets fetch (path, href) =
      .ok (match fetch href with
           | FetchResult.ok (some sub) =>
             sub.assets.map (fun ka =>
               (ka.2.href, os_path_join path (format_date sub.year sub.month sub.day)))
           | _ => []) := by
  rcases hf : fetch href with _ | d
  · simp [get_source_item_assets, hf]
  · cases d with
    | none => exact absurd hf hnd
    | some sub => simp [get_source_item_assets, hf]

/-- The pool map over source links, when it succeeds, returns one task
list per link whose total size is the sum of the decoded sub-items'
asset counts. -/
theorem mp_sum (fetch : String → FetchResult) (path : String) :
    ∀ (links : List ItemLink) (results : List (List DownloadTask)),
      map_pool (get_source_item_assets fetch)
        (links.map (fun link => (path, link.href))) = .ok results →
      (results.map List.length).sum =
        (links.map (fun link =>
          match fetch link.href with
          | FetchResult.ok (some sub) => sub.assets.length
          | _ => 0)).sum := by
  intro links
  induction links with
  | nil =>
    intro results hq
    rw [List.map_nil, map_pool, Except.ok.injEq] at hq
    subst hq
    rfl
  | cons l rest ih =>
    intro results hq
    rw [List.map_cons] at hq
    rcases map_pool_ok_cons_inv hq with ⟨b, bs, hb, hbs, hres⟩
    subst hres
    rw [List.map_cons, List.sum_cons, List.map_cons, List.sum_cons, ih bs hbs]
    congr 1
    rcases hf : fetch l.href with _ | d
    · simp only [gsia_decoded, get_source_item_assets, hf, Except.ok.injEq] at hb
      simp [← hb]
    · cases d with
      | none =>
        simp only [get_source_item_assets, hf] at hb
        exact absurd hb (by simp)
      | some sub =>
        rw [gsia_decoded hf, Except.ok.injEq] at hb
        simp [← hb]

/-- Absent decode failures, the pool map over source links succeeds with
exactly the `per_link_tasks` of each link. -/
theorem mp_per_link (fetch : String → FetchResult) (path : String) :
    ∀ (links : List ItemLink), (∀ l ∈ links, fetch l.href ≠ FetchResult.ok none) →
      map_pool (get_source_item_assets fetch) (links.map (fun l => (path, l.href))) =
        .ok (links.map (per_link_tasks fetch path)) := by
  intro links
  induction links with
  | nil => intro _; rfl
  | cons l rest ih =>
    intro hnd
    rw [List.map_cons, map_pool, gsia_no_decode (hnd l (List.mem_cons_self l rest))]
    rw [ih (fun l2 hl2 => hnd l2 (List.mem_cons_of_mem l hl2))]
    rfl

/-- Unfolding: `download_source_and_labels` when the pool map succeeded
and the labels asset is present. -/
theorem dsl_ok {fetch : String → FetchResult} {item : CatalogItem}
    {results : List (List DownloadTask)} {a : Asset}
    (hmp : map_pool (get_source_item_assets fetch)
      ((item.links.filter (fun l => l.rel == "source")).map
        (fun l => ("landcovernet/" ++ item.id ++ "/", l.href))) = .ok results)
    (hlab : item.assets.lookup ("labels") = some a) :
    download_source_and_labels fetch item =
      .ok (results ++ [[(a.href, "landcovernet/" ++ item.id ++ "/")]]) := by
  simp only [download_source_and_labels, hmp, hlab]

/-- Inversion of a successful `download_source_and_labels` run. -/
theorem dsl_ok_inv {fetch : String → FetchResult} {item : CatalogItem}
    {r : List (List DownloadTask)}
    (h : download_source_and_labels fetch item = .ok r) :
    ∃ results a, map_pool (get_source_item_assets fetch)
        ((item.links.filter (fun l => l.rel == "source")).map
          (fun l => ("landcovernet/" ++ item.id ++ "/", l.href))) = .ok results ∧
      item.assets.lookup ("labels") = some a ∧
      r = results ++ [[(a.href, "landcovernet/" ++ item.id ++ "/")]] := by
  simp only [download_source_and_labels] at h
  split at h
  next e hmp => exact absurd h (by simp)
  next results hmp =>
    split at h
    next hlab => exact absurd h (by simp)
    next a hlab =>
      rw [Except.ok.injEq] at h
      exact ⟨results, a, hmp, hlab, h.symm⟩

/-- The `YYYY_MM_DD` string is never empty. -/
theorem format_date_length_pos (y m d : Nat) : 0 < (format_date y m d).length := by
  have h1 : ("_" : String).length = 1 := rfl
  rw [format_date]
  simp only [String.length_append, h1]
  omega

/-- Joining a date subdirectory name onto a directory never gives back
the directory itself. -/
theorem os_path_join_format_ne (a : String) (y m d : Nat) :
    os_path_join a (format_date y m d) ≠ a := by
  have hdt : 0 < (format_date y m d).length := format_date_length_pos y m d
  rw [os_path_join]
  rcases hlast : a.toList.getLast? with _ | c
  · have ha : a = "" := String.ext (List.getLast?_eq_none_iff.mp hlast)
    intro heq
    replace heq : format_date y m d = a := heq
    rw [ha] at heq
    have := congrArg String.length heq
    simp at this
    omega
  · show (if c = ('/') then a ++ format_date y m d
      else a ++ "/" ++ format_date y m d) ≠ a
    by_cases hc : c = ('/')
    · rw [if_pos hc]
      intro heq
      have := congrArg String.length heq
      simp only [String.length_append] at this
      omega
    · rw [if_neg hc]
      intro heq
      have := congrArg String.length heq
      simp only [String.length_append] at this
      omega

/-! ## Claim C4: error handling in the download executor -/

/-- C4 as stated is false: `download` contains no `try`/`except`, so an
error raised while resolving a task propagates out of the worker and out
of `pool.map` — the executor run surfaces it as an exception instead of
logging it.  Here a batch in which one task's redirect lookup has no
`Location` header aborts the whole run. -/
theorem C4_executor_counterexample :
    ¬ (∀ (getLocation : String → Option String) (batches : List (List DownloadTask)),
         run_downloads getLocation batches ≠ Except.error ()) := by
  intro hclaim
  exact hclaim (fun u => if u == ("good") then some ("http://x/f.t") else none)
    [[(("bad"), ("p")), (("good"), ("q"))]] rfl

/-- C4 amended: errors are not caught inside the worker: if any task of
any batch fails to resolve or fetch (modelled as `download` raising), the
exception propagates out of `pool.map` and the whole download run
evaluates to that error instead of a result list — sibling outcomes are
discarded and subsequent batches are never dispatched. -/
theorem C4_error_propagates_amended (getLocation : String → Option String)
    (batches : List (List DownloadTask)) (b : List DownloadTask) (t : DownloadTask)
    (hb : b ∈ batches) (ht : t ∈ b)
    (herr : download getLocation t = .error ()) :
    run_downloads getLocation batches = .error () := by
  have hbatch : map_pool (download getLocation) b = .error () :=
    map_pool_error_mem (download getLocation) b t ht herr
  exact map_pool_error_mem (fun d => map_pool (download getLocation) d) batches b hb hbatch

/-- Witness for the amended C4 on a concrete two-task batch. -/
theorem C4_error_propagates_amended_witness :
    run_downloads (fun u => if u == ("good") then some ("http://x/f.t") else none)
      [[(("bad"), ("p")), (("good"), ("q"))]] = Except.error () :=
  C4_error_propagates_amended
    (fun u => if u == ("good") then some ("http://x/f.t") else none)
    [[(("bad"), ("p")), (("good"), ("q"))]]
    [(("bad"), ("p")), (("good"), ("q"))] (("bad"), ("p"))
    (List.mem_singleton.mpr rfl) (List.mem_cons_self _ _) rfl

/-! ## Claim C5: expansion completeness -/

/-- C5: when the expansion of an item completes, the number of download
tasks it produced is the sum, over the source sub-items that were
successfully fetched and decoded, of their asset counts, plus exactly one
task for the item's own labels asset, destined for the item's root
directory (the last batch of the result). -/
theorem C5_expansion_count (fetch : String → FetchResult) (item : CatalogItem)
    (r : List (List DownloadTask))
    (h : download_source_and_labels fetch item = .ok r) :
    (r.map List.length).sum = successful_asset_count fetch item + 1 ∧
    ∃ a, item.assets.lookup ("labels") = some a ∧
      r.getLast? = some [(a.href, "landcovernet/" ++ item.id ++ "/")] := by
  rcases dsl_ok_inv h with ⟨results, a, hmp, hlab, hr⟩
  subst hr
  constructor
  · rw [List.map_append, List.sum_append]
    rw [mp_sum fetch ("landcovernet/" ++ item.id ++ "/")
      (item.links.filter (fun l => l.rel == "source")) results hmp]
    rw [successful_asset_count]
    simp
  · exact ⟨a, hlab, List.getLast?_concat _⟩

/-- Witness for C5: an item with one raising and one successful source
link (two assets), so the task count is 2 + 1. -/
theorem C5_expansion_count_witness :
    ∃ r, download_source_and_labels
        (fun h => if h == ("s1") then FetchResult.raised
          else if h == ("s2") then
            FetchResult.ok (some ⟨2018, 1, 5, [(("B2"), ⟨("a2")⟩), (("B3"), ⟨("a3")⟩)]⟩)
          else FetchResult.ok none)
        ⟨("it1"), none, [(("labels"), ⟨("lh")⟩)],
          [⟨("source"), ("s1")⟩, ⟨("source"), ("s2")⟩]⟩ = .ok r ∧
      (r.map List.length).sum =
        successful_asset_count
          (fun h => if h == ("s1") then FetchResult.raised
            else if h == ("s2") then
              FetchResult.ok (some ⟨2018, 1, 5, [(("B2"), ⟨("a2")⟩), (("B3"), ⟨("a3")⟩)]⟩)
            else FetchResult.ok none)
          ⟨("it1"), none, [(("labels"), ⟨("lh")⟩)],
            [⟨("source"), ("s1")⟩, ⟨("source"), ("s2")⟩]⟩ + 1 :=
  ⟨[[], [(("a2"), ("landcovernet/it1/2018_01_05")), (("a3"), ("landcovernet/it1/2018_01_05"))],
    [(("lh"), ("landcovernet/it1/"))]], rfl,
   (C5_expansion_count
      (fun h => if h == ("s1") then FetchResult.raised
        else if h == ("s2") then
          FetchResult.ok (some ⟨2018, 1, 5, [(("B2"), ⟨("a2")⟩), (("B3"), ⟨("a3")⟩)]⟩)
        else FetchResult.ok none)
      ⟨("it1"), none, [(("labels"), ⟨("lh")⟩)],
        [⟨("source"), ("s1")⟩, ⟨("source"), ("s2")⟩]⟩
      [[], [(("a2"), ("landcovernet/it1/2018_01_05")),
            (("a3"), ("landcovernet/it1/2018_01_05"))],
       [(("lh"), ("landcovernet/it1/"))]] rfl).1⟩

/-! ## Claim C6: fault isolation in the expander -/

/-- C6 as stated is false for decode failures: only the `requests.get`
call sits inside the `try`, while `r.json()` field access happens outside
it, so a response that fails to decode (e.g. a 500 error page) raises an
uncaught exception that aborts the whole item expansion — the sibling
sub-item's tasks and the label task are not produced. -/
theorem C6_fault_isolation_counterexample :
    ¬ (∀ (fetch : String → FetchResult) (item : CatalogItem) (a : Asset),
         item.assets.lookup ("labels") = some a →
         ∃ r, download_source_and_labels fetch item = .ok r ∧
           [(a.href, "landcovernet/" ++ item.id ++ "/")] ∈ r) := by
  intro hclaim
  rcases hclaim
      (fun h => if h == ("s1") then FetchResult.ok none
        else FetchResult.ok (some ⟨2018, 1, 5, [(("B2"), ⟨("a2")⟩)]⟩))
      ⟨("it1"), none, [(("labels"), ⟨("lh")⟩)],
        [⟨("source"), ("s1")⟩, ⟨("source"), ("s2")⟩]⟩
      ⟨("lh")⟩ rfl with ⟨r, hr, _⟩
  have hbad : (Except.error () : Except Unit (List (List DownloadTask))) = .ok r := hr
  exact Except.noConfusion hbad

/-- C6 amended: failures of the request itself (exceptions raised by
`requests.get`, e.g. a timeout) are caught: such a sub-item contributes
zero tasks and the sibling sub-items' tasks and the label task are still
produced; only when no sub-item response fails to decode does the
expansion succeed with exactly the per-link tasks plus the label task. -/
theorem C6_fault_isolation_amended (fetch : String → FetchResult)
    (item : CatalogItem) (a : Asset)
    (hlab : item.assets.lookup ("labels") = some a)
    (hnd : ∀ l ∈ item.links, fetch l.href ≠ FetchResult.ok none) :
    download_source_and_labels fetch item =
      .ok (((item.links.filter (fun l => l.rel == "source")).map
              (per_link_tasks fetch ("landcovernet/" ++ item.id ++ "/")))
           ++ [[(a.href, "landcovernet/" ++ item.id ++ "/")]]) :=
  dsl_ok (mp_per_link fetch ("landcovernet/" ++ item.id ++ "/")
    (item.links.filter (fun l => l.rel == "source"))
    (fun l hl => hnd l (List.mem_of_mem_filter hl))) hlab

/-- Witness for the amended C6: one raising link and one decoded link;
the raising link contributes an empty batch, the sibling's asset and the
label task are produced. -/
theorem C6_fault_isolation_amended_witness :
    download_source_and_labels
        (fun h => if h == ("s1") then FetchResult.raised
          else FetchResult.ok (some ⟨2018, 1, 5, [(("B2"), ⟨("a2")⟩)]⟩))
        ⟨("it1"), none, [(("labels"), ⟨("lh")⟩)],
          [⟨("source"), ("s1")⟩, ⟨("source"), ("s2")⟩]⟩ =
      .ok [[], [(("a2"), ("landcovernet/it1/2018_01_05"))],
           [(("lh"), ("landcovernet/it1/"))]] := by
  have h := C6_fault_isolation_amended
    (fun h => if h == ("s1") then FetchResult.raised
      else FetchResult.ok (some ⟨2018, 1, 5, [(("B2"), ⟨("a2")⟩)]⟩))
    ⟨("it1"), none, [(("labels"), ⟨("lh")⟩)],
      [⟨("source"), ("s1")⟩, ⟨("source"), ("s2")⟩]⟩
    ⟨("lh")⟩ rfl (by decide)
  rw [h]
  rfl

/-! ## Claim C8: destination path determinism -/

/-- C8: a successfully decoded sub-item's tasks all go to the directory
obtained by joining the item's root directory with the `YYYY_MM_DD`
rendering of the sub-item's capture date — a function of those inputs
alone, hence identical for equal inputs — and that directory is never the
root directory itself; the label task's destination is always the item's
root directory. -/
theorem C8_destination_paths :
    (∀ (fetch : String → FetchResult) (id href : String) (sub : SubItem)
       (tasks : List DownloadTask),
       fetch href = FetchResult.ok (some sub) →
       get_source_item_assets fetch ("landcovernet/" ++ id ++ "/", href) = .ok tasks →
       ∀ t ∈ tasks,
         t.2 = os_path_join ("landcovernet/" ++ id ++ "/")
                 (format_date sub.year sub.month sub.day) ∧
         t.2 ≠ "landcovernet/" ++ id ++ "/")
    ∧ (∀ (fetch : String → FetchResult) (item : CatalogItem) (a : Asset)
         (r : List (List DownloadTask)),
         item.assets.lookup ("labels") = some a →
         download_source_and_labels fetch item = .ok r →
         r.getLast? = some [(a.href, "landcovernet/" ++ item.id ++ "/")]) := by
  constructor
  · intro fetch id href sub tasks hf ht t hmem
    rw [gsia_decoded hf, Except.ok.injEq] at ht
    subst ht
    rcases List.mem_map.mp hmem with ⟨ka, _, hka⟩
    constructor
    · rw [← hka]
    · rw [← hka]
      exact os_path_join_format_ne ("landcovernet/" ++ id ++ "/") sub.year sub.month sub.day
  · intro fetch item a r hlab h
    rcases dsl_ok_inv h with ⟨results, a2, hmp, hlab2, hr⟩
    have ha : a = a2 := Option.some.inj (hlab.symm.trans hlab2)
    subst ha
    subst hr
    exact List.getLast?_concat _

/-- Witness for C8: a concrete sub-item task lands in the dated
subdirectory and not in the root directory. -/
theorem C8_destination_paths_witness :
    ((("a2") , ("landcovernet/it1/2018_01_05")) : DownloadTask).2 ≠
      "landcovernet/" ++ "it1" ++ "/" :=
  ((C8_destination_paths.1
      (fun _ => FetchResult.ok (some ⟨2018, 1, 5, [(("B2"), ⟨("a2")⟩)]⟩))
      ("it1") ("s2") ⟨2018, 1, 5, [(("B2"), ⟨("a2")⟩)]⟩
      [(("a2"), ("landcovernet/it1/2018_01_05"))] rfl rfl
      ((("a2")), ("landcovernet/it1/2018_01_05")) (List.mem_singleton.mpr rfl)).2)

/-! ## Claim C9: s3 dispatch -/

/-- C9: a task whose href resolves (via the `Location` header) to
`s3://bucket/path/to/file.tif` is dispatched to the object-storage
branch (not the HTTP one), with bucket `bucket` and key
`path/to/file.tif`, and the written file is `file.tif` inside the task's
destination directory. -/
theorem C9_s3_dispatch (getLocation : String → Option String) (href dest : String)
    (h : getLocation href = some ("s3://bucket/path/to/file.tif")) :
    download getLocation (href, dest) =
      .ok (DlAction.s3_file ("bucket") ("path/to/file.tif")
        (os_path_join dest ("file.tif"))) := by
  simp only [download, get_download_uri, h]
  rfl

/-- Witness for C9 with a concrete redirect oracle and destination. -/
theorem C9_s3_dispatch_witness :
    download (fun _ => some ("s3://bucket/path/to/file.tif")) (("h"), ("out")) =
      .ok (DlAction.s3_file ("bucket") ("path/to/file.tif")
        (os_path_join ("out") ("file.tif"))) :=
  C9_s3_dispatch (fun _ => some ("s3://bucket/path/to/file.tif")) ("h") ("out") rfl

end LandCoverNet
